import Mathlib

/-!
Verification of the DOJ Epstein-dataset PDF scraper
(`load_files_locally_20260130.py` and `generate_valid_urls.py`).

Modelling conventions (shallow embedding):
* a Python `str` is a `List Char` (`PyStr`); Python byte strings are
  `List Nat` (one `Nat` per byte);
* pure helper functions are translated directly from the Python source;
* the Playwright browser/network side is modelled by oracle functions
  passed as explicit parameters;
* the local filesystem under `OUT_DIR` is a flat map from filename to
  optional file content (`Store`).
-/

/-- A Python string, modelled as its list of characters. -/
abbrev PyStr := List Char

/-- Python `str.lower()`, modelled character-wise via `Char.toLower`
(sufficient for the ASCII patterns the scripts compare against). -/
def pyLower (s : PyStr) : PyStr := s.map Char.toLower

/-- Python `s.endswith(t)`: `t` is a suffix of `s`. -/
def pyEndsWith (s t : PyStr) : Bool := t.isSuffixOf s

/-- `normalize_pdf_url` (load_files_locally_20260130.py, lines 22-26):

    if u.lower().endswith(".ppdf"):
        return u[:-5] + ".pdf"
    return u

`u[:-5]` is `u.take (u.length - 5)`. -/
def normalize_pdf_url (u : PyStr) : PyStr :=
  if pyEndsWith (pyLower u) ".ppdf".data then
    u.take (u.length - 5) ++ ".pdf".data
  else u

/-- `looks_like_pdf_bytes` (load_files_locally_20260130.py, lines 28-29):
`b[:4] == b"%PDF"`.  The bytes of `b"%PDF"` are `[0x25, 0x50, 0x44, 0x46]`. -/
def looks_like_pdf_bytes (b : List Nat) : Bool :=
  b.take 4 == [0x25, 0x50, 0x44, 0x46]

section PyStrLemmas

theorem pyEndsWith_iff (s t : PyStr) : pyEndsWith s t = true ↔ t <:+ s := by
  simp [pyEndsWith, List.isSuffixOf_iff_suffix]

/-- A list ending in `".pdf"` does not end in `".ppdf"`:
the two suffixes disagree at the fourth character from the end. -/
theorem not_ppdf_suffix_of_pdf (y : PyStr) :
    pyEndsWith (y ++ ".pdf".data) ".ppdf".data = false := by
  rw [Bool.eq_false_iff]
  intro h
  rw [pyEndsWith_iff] at h
  obtain ⟨t, ht⟩ := h
  have h2 := congrArg List.reverse ht
  simp only [List.reverse_append] at h2
  have h4 := congrArg (fun l => l.get? 3) h2
  simp at h4

theorem pyLower_append (a b : PyStr) : pyLower (a ++ b) = pyLower a ++ pyLower b :=
  List.map_append _ a b

theorem pyLower_pdf : pyLower ".pdf".data = ".pdf".data := by decide

end PyStrLemmas

/-- C9: `normalize_pdf_url` is idempotent and its output never ends in
`".ppdf"` case-insensitively. -/
theorem normalize_pdf_url_idem_and_no_ppdf (u : PyStr) :
    normalize_pdf_url (normalize_pdf_url u) = normalize_pdf_url u ∧
    pyEndsWith (pyLower (normalize_pdf_url u)) ".ppdf".data = false := by
  by_cases h : pyEndsWith (pyLower u) ".ppdf".data = true
  · have hout : normalize_pdf_url u = u.take (u.length - 5) ++ ".pdf".data := by
      simp [normalize_pdf_url, h]
    have hno : pyEndsWith (pyLower (u.take (u.length - 5) ++ ".pdf".data)) ".ppdf".data = false := by
      rw [pyLower_append, pyLower_pdf]
      exact not_ppdf_suffix_of_pdf _
    constructor
    · rw [hout]
      simp [normalize_pdf_url, hno]
    · rw [hout]
      exact hno
  · have h' : pyEndsWith (pyLower u) ".ppdf".data = false := by
      simpa using h
    have hout : normalize_pdf_url u = u := by
      simp [normalize_pdf_url, h']
    rw [hout]
    exact ⟨by simp [normalize_pdf_url, h'], h'⟩

/-- C10: `looks_like_pdf_bytes` is total on every byte string; it returns
`false` on inputs shorter than four bytes, and returns `true` exactly when
the bytes `%PDF` are a prefix of the input. -/
theorem looks_like_pdf_bytes_spec (b : List Nat) :
    (b.length < 4 → looks_like_pdf_bytes b = false) ∧
    (looks_like_pdf_bytes b = true ↔ [0x25, 0x50, 0x44, 0x46] <+: b) := by
  constructor
  · intro hlen
    rw [Bool.eq_false_iff]
    intro h
    simp only [looks_like_pdf_bytes, beq_iff_eq] at h
    have : (b.take 4).length = 4 := by rw [h]; rfl
    simp [List.length_take] at this
    omega
  · simp only [looks_like_pdf_bytes, beq_iff_eq]
    constructor
    · intro h
      exact ⟨b.drop 4, by rw [← h]; exact List.take_append_drop 4 b⟩
    · intro ⟨t, ht⟩
      subst ht
      rfl

/-- Witness for C10 at concrete inputs: a two-byte input is rejected, and
an input starting with `%PDF` is accepted. -/
theorem looks_like_pdf_bytes_spec_witness :
    looks_like_pdf_bytes [0x25, 0x50] = false ∧
    looks_like_pdf_bytes [0x25, 0x50, 0x44, 0x46, 0x2d] = true :=
  ⟨(looks_like_pdf_bytes_spec [0x25, 0x50]).1 (by decide),
   (looks_like_pdf_bytes_spec [0x25, 0x50, 0x44, 0x46, 0x2d]).2.mpr ⟨[0x2d], rfl⟩⟩

/-! ### Decimal rendering of page numbers

Python's `f"{page_num}"` renders the page number in decimal.  We embed it
with a fuel-based digit accumulator (mirroring `Nat.toDigits` in spirit)
so that it evaluates by kernel reduction, together with a
well-founded reference version used for proofs. -/

/-- Accumulator loop producing the decimal digits of `n` (base 10). -/
def decDigitsCore : Nat → Nat → List Char → List Char
  | 0, _, acc => acc
  | fuel + 1, n, acc =>
    let d := Nat.digitChar (n % 10)
    if n / 10 = 0 then d :: acc else decDigitsCore fuel (n / 10) (d :: acc)

/-- The decimal digit characters of `n`: the embedding of `f"{n}"`. -/
def decDigits (n : Nat) : List Char := decDigitsCore (n + 1) n []

/-- Reference version of `decDigits` by well-founded recursion. -/
def decDigitsRef (n : Nat) : List Char :=
  if n < 10 then [Nat.digitChar n]
  else decDigitsRef (n / 10) ++ [Nat.digitChar (n % 10)]
decreasing_by exact Nat.div_lt_self (by omega) (by omega)

theorem decDigitsRef_eq (n : Nat) :
    decDigitsRef n =
      if n < 10 then [Nat.digitChar n]
      else decDigitsRef (n / 10) ++ [Nat.digitChar (n % 10)] := by
  rw [decDigitsRef]

theorem decDigitsCore_spec : ∀ (fuel n : Nat) (acc : List Char), n ≤ fuel →
    decDigitsCore (fuel + 1) n acc = decDigitsRef n ++ acc := by
  intro fuel
  induction fuel with
  | zero =>
    intro n acc hn
    interval_cases n
    simp [decDigitsCore, decDigitsRef_eq]
  | succ fuel ih =>
    intro n acc hn
    by_cases h10 : n < 10
    · have hdiv : n / 10 = 0 := Nat.div_eq_of_lt h10
      have hmod : n % 10 = n := Nat.mod_eq_of_lt h10
      simp [decDigitsCore, hdiv, hmod, decDigitsRef_eq, h10]
    · have hdiv : n / 10 ≠ 0 := by
        intro h
        rw [Nat.div_eq_zero_iff (by omega)] at h
        omega
      have hle : n / 10 ≤ fuel := by
        have := Nat.div_lt_self (by omega : 0 < n) (by omega : 1 < 10)
        omega
      rw [show decDigitsCore (fuel + 1 + 1) n acc
            = decDigitsCore (fuel + 1) (n / 10) (Nat.digitChar (n % 10) :: acc) by
          simp [decDigitsCore, hdiv]]
      rw [ih (n / 10) _ hle]
      rw [decDigitsRef_eq n, if_neg h10]
      simp

theorem decDigits_eq_ref (n : Nat) : decDigits n = decDigitsRef n := by
  rw [decDigits, decDigitsCore_spec n n [] (le_refl n), List.append_nil]

theorem digitChar_inj_lt : ∀ d1 < 10, ∀ d2 < 10,
    Nat.digitChar d1 = Nat.digitChar d2 → d1 = d2 := by decide

theorem decDigitsRef_ne_nil (n : Nat) : decDigitsRef n ≠ [] := by
  rw [decDigitsRef_eq]
  split <;> simp

theorem decDigitsRef_injective : ∀ m n : Nat, decDigitsRef m = decDigitsRef n → m = n := by
  intro m
  induction m using Nat.strong_induction_on with
  | _ m ih =>
    intro n h
    rw [decDigitsRef_eq m, decDigitsRef_eq n] at h
    by_cases hm : m < 10 <;> by_cases hn : n < 10
    · simp only [if_pos hm, if_pos hn, List.cons.injEq] at h
      exact digitChar_inj_lt m hm n hn h.1
    · rw [if_pos hm, if_neg hn] at h
      have hl := congrArg List.length h
      rw [List.length_append] at hl
      simp only [List.length_cons, List.length_nil] at hl
      have h0 : (decDigitsRef (n / 10)).length = 0 := by omega
      exact absurd (List.length_eq_zero.1 h0) (decDigitsRef_ne_nil _)
    · rw [if_neg hm, if_pos hn] at h
      have hl := congrArg List.length h
      rw [List.length_append] at hl
      simp only [List.length_cons, List.length_nil] at hl
      have h0 : (decDigitsRef (m / 10)).length = 0 := by omega
      exact absurd (List.length_eq_zero.1 h0) (decDigitsRef_ne_nil _)
    · rw [if_neg hm, if_neg hn] at h
      obtain ⟨h1, h2⟩ := List.append_inj' h (by simp)
      have hdiv : m / 10 = n / 10 :=
        ih (m / 10) (Nat.div_lt_self (by omega) (by omega)) (n / 10) h1
      have hmod : m % 10 = n % 10 := by
        simp only [List.cons.injEq] at h2
        exact digitChar_inj_lt (m % 10) (Nat.mod_lt m (by omega)) (n % 10)
          (Nat.mod_lt n (by omega)) h2.1
      omega

theorem decDigits_injective {m n : Nat} (h : decDigits m = decDigits n) : m = n :=
  decDigitsRef_injective m n (by rwa [decDigits_eq_ref, decDigits_eq_ref] at h)

theorem decDigitsRef_all_digits : ∀ n : Nat, ∀ c ∈ decDigitsRef n, c.isDigit = true := by
  have hdc : ∀ d < 10, (Nat.digitChar d).isDigit = true := by decide
  intro n
  induction n using Nat.strong_induction_on with
  | _ n ih =>
    intro c hc
    rw [decDigitsRef_eq] at hc
    by_cases hn : n < 10
    · rw [if_pos hn] at hc
      simp at hc
      exact hc ▸ hdc n hn
    · rw [if_neg hn] at hc
      rw [List.mem_append] at hc
      rcases hc with hc | hc
      · exact ih (n / 10) (Nat.div_lt_self (by omega) (by omega)) c hc
      · simp at hc
        exact hc ▸ hdc (n % 10) (Nat.mod_lt n (by omega))

theorem decDigits_no_qmark (n : Nat) : ('?' : Char) ∉ decDigits n := by
  rw [decDigits_eq_ref]
  intro h
  have := decDigitsRef_all_digits n '?' h
  exact absurd this (by decide)

/-! ### Phase-1 numbered-page discovery in the downloader -/

/-- The probe URL `f"{base_url}?page={page_num}"`
(load_files_locally_20260130.py, line 86). -/
def pageUrl (base : PyStr) (n : Nat) : PyStr := base ++ "?page=".data ++ decDigits n

theorem pageUrl_inj_same {base : PyStr} {m n : Nat} (h : pageUrl base m = pageUrl base n) :
    m = n := by
  unfold pageUrl at h
  rw [List.append_assoc, List.append_assoc] at h
  exact decDigits_injective (List.append_cancel_left (List.append_cancel_left h))

/-- Splitting a concatenation at the first `'?'`: if neither prefix
contains `'?'`, equal concatenations force equal parts. -/
theorem append_qmark_inj : ∀ (l₁ l₂ : PyStr) {r₁ r₂ : PyStr},
    ('?' : Char) ∉ l₁ → ('?' : Char) ∉ l₂ →
    l₁ ++ '?' :: r₁ = l₂ ++ '?' :: r₂ → l₁ = l₂ ∧ r₁ = r₂ := by
  intro l₁
  induction l₁ with
  | nil =>
    intro l₂ r₁ r₂ _ h2 h
    cases l₂ with
    | nil =>
      constructor
      · rfl
      · simpa using h
    | cons b bs =>
      rw [List.nil_append, List.cons_append] at h
      injection h with hb _
      subst hb
      exact absurd (List.mem_cons_self _ _) h2
  | cons a as ih =>
    intro l₂ r₁ r₂ h1 h2 h
    cases l₂ with
    | nil =>
      rw [List.nil_append, List.cons_append] at h
      injection h with ha _
      subst ha
      exact absurd (List.mem_cons_self _ _) h1
    | cons b bs =>
      rw [List.cons_append, List.cons_append] at h
      injection h with hab hrest
      subst hab
      have h1' : ('?' : Char) ∉ as := fun hm => h1 (List.mem_cons_of_mem _ hm)
      have h2' : ('?' : Char) ∉ bs := fun hm => h2 (List.mem_cons_of_mem _ hm)
      obtain ⟨he, hr⟩ := ih bs h1' h2' hrest
      exact ⟨by rw [he], hr⟩

/-- `pageUrl base n` written with the `'?'` exposed at the head of the
query part. -/
theorem pageUrl_qmark (base : PyStr) (n : Nat) :
    pageUrl base n = base ++ '?' :: ("page=".data ++ decDigits n) := by
  unfold pageUrl
  rw [List.append_assoc]
  rfl

/-- `pageUrl` is injective on `'?'`-free bases (the dataset base URLs
contain no `'?'`, and the rendered page number is all digits). -/
theorem pageUrl_inj_cross {b₁ b₂ : PyStr} {m n : Nat}
    (h1 : ('?' : Char) ∉ b₁) (h2 : ('?' : Char) ∉ b₂)
    (h : pageUrl b₁ m = pageUrl b₂ n) : b₁ = b₂ ∧ m = n := by
  rw [pageUrl_qmark, pageUrl_qmark] at h
  obtain ⟨hb, hr⟩ := append_qmark_inj b₁ b₂ h1 h2 h
  refine ⟨hb, decDigits_injective (List.append_cancel_left hr)⟩

/-- Result of a Playwright `page.goto` call: a `PlaywrightTimeoutError`, a
`None` response, or a response with its `ok` flag and `status`. -/
inductive GotoResult where
  | timeout : GotoResult
  | noResponse : GotoResult
  | resp (ok : Bool) (status : Nat) : GotoResult
deriving DecidableEq

/-- `response and response.ok`: the test the script uses before recording
a URL as valid (`if not response or not response.ok: ... break`). -/
def GotoResult.isOk : GotoResult → Bool
  | .resp true _ => true
  | _ => false

/-- `MAX_PAGE` (load_files_locally_20260130.py, line 13). -/
def MAX_PAGE : Nat := 1000

/-- The numbered-page probe loop of Phase 1
(load_files_locally_20260130.py, lines 85-98), starting at page `cur`
with `rem` page numbers left to test.  Returns the URLs appended to
`valid_page_urls` and the trace of URLs passed to `page.goto`, in
order.  A timeout or a missing/non-ok response breaks the loop. -/
def discoverLoop (net : PyStr → GotoResult) (base : PyStr) :
    Nat → Nat → List PyStr × List PyStr
  | _, 0 => ([], [])
  | cur, rem + 1 =>
    let url := pageUrl base cur
    match net url with
    | .timeout => ([], [url])
    | .noResponse => ([], [url])
    | .resp ok _ =>
      if ok then
        let r := discoverLoop net base (cur + 1) rem
        (url :: r.1, url :: r.2)
      else ([], [url])

/-- Phase-1 handling of one dataset base URL
(load_files_locally_20260130.py, lines 72-98): load the base page
(skipping the whole dataset on timeout or a missing/non-ok response),
then probe `?page=1 .. ?page=MAX_PAGE`.  `click_age_yes_if_present`
performs no `page.goto`, so it does not contribute to the request
trace. -/
def discoverDataset (net : PyStr → GotoResult) (base : PyStr) :
    List PyStr × List PyStr :=
  match net base with
  | .timeout => ([], [base])
  | .noResponse => ([], [base])
  | .resp ok _ =>
    if ok then
      let r := discoverLoop net base 1 MAX_PAGE
      (r.1, base :: r.2)
    else ([], [base])

theorem discoverLoop_spec (net : PyStr → GotoResult) (base : PyStr) :
    ∀ (rem cur : Nat),
      ∃ n, n ≤ rem ∧
        (discoverLoop net base cur rem).1 = (List.range' cur n).map (pageUrl base) ∧
        (discoverLoop net base cur rem).2 =
          (List.range' cur (if n = rem then n else n + 1)).map (pageUrl base) ∧
        (∀ k, cur ≤ k → k < cur + n → (net (pageUrl base k)).isOk = true) ∧
        (n = rem ∨ (net (pageUrl base (cur + n))).isOk = false) := by
  intro rem
  induction rem with
  | zero =>
    intro cur
    exact ⟨0, le_refl 0, by simp [discoverLoop], by simp [discoverLoop],
      fun k h1 h2 => absurd h2 (by omega), Or.inl rfl⟩
  | succ rem ih =>
    intro cur
    rcases hnet : net (pageUrl base cur) with _ | _ | ⟨ok, s⟩
    · refine ⟨0, by omega, ?_, ?_, fun k h1 h2 => absurd h2 (by omega), Or.inr ?_⟩
      · simp [discoverLoop, hnet]
      · simp [discoverLoop, hnet]
      · rw [Nat.add_zero, hnet]; rfl
    · refine ⟨0, by omega, ?_, ?_, fun k h1 h2 => absurd h2 (by omega), Or.inr ?_⟩
      · simp [discoverLoop, hnet]
      · simp [discoverLoop, hnet]
      · rw [Nat.add_zero, hnet]; rfl
    · cases ok with
      | false =>
        refine ⟨0, by omega, ?_, ?_, fun k h1 h2 => absurd h2 (by omega), Or.inr ?_⟩
        · simp [discoverLoop, hnet]
        · simp [discoverLoop, hnet]
        · rw [Nat.add_zero, hnet]; rfl
      | true =>
        obtain ⟨n, hle, h1, h2, hok, hlast⟩ := ih (cur + 1)
        have hunfold : discoverLoop net base cur (rem + 1) =
            (pageUrl base cur :: (discoverLoop net base (cur + 1) rem).1,
             pageUrl base cur :: (discoverLoop net base (cur + 1) rem).2) := by
          simp [discoverLoop, hnet]
        refine ⟨n + 1, by omega, ?_, ?_, ?_, ?_⟩
        · rw [hunfold]
          simp only [List.range'_succ, List.map_cons]
          rw [h1]
        · rw [hunfold]
          by_cases hn : n = rem
          · subst hn
            rw [if_pos rfl] at h2
            rw [if_pos rfl, h2, List.range'_succ, List.map_cons]
          · have hn' : ¬(n + 1 = rem + 1) := by omega
            simp only [if_neg hn] at h2
            simp only [if_neg hn']
            simp only [List.range'_succ, List.map_cons]
            rw [h2]
            rw [List.range'_succ, List.map_cons]
        · intro k hk1 hk2
          rcases Nat.eq_or_lt_of_le hk1 with heq | hlt
          · rw [← heq, hnet]; rfl
          · exact hok k hlt (by omega)
        · rcases hlast with heq | hfail
          · exact Or.inl (by omega)
          · refine Or.inr ?_
            have : cur + (n + 1) = cur + 1 + n := by omega
            rw [this]
            exact hfail

/-- First dataset base URL (`DATASET_PAGES[0]`, both scripts). -/
def dataset9 : PyStr :=
  "https://www.justice.gov/epstein/doj-disclosures/data-set-9-files".data

/-- Second dataset base URL. -/
def dataset10 : PyStr :=
  "https://www.justice.gov/epstein/doj-disclosures/data-set-10-files".data

/-- Third dataset base URL. -/
def dataset11 : PyStr :=
  "https://www.justice.gov/epstein/doj-disclosures/data-set-11-files".data

/-- `DATASET_PAGES` (lines 7-11 of both scripts). -/
def DATASET_PAGES : List PyStr := [dataset9, dataset10, dataset11]

/-- A probe URL is never equal to its base URL (it is strictly longer). -/
theorem pageUrl_ne_base (base : PyStr) (k : Nat) : pageUrl base k ≠ base := by
  intro h
  have hlen := congrArg List.length h
  rw [pageUrl, List.append_assoc, List.length_append, List.length_append] at hlen
  simp at hlen

/-- What C3 asserts of one dataset whose base page answered ok: the valid
list is exactly the consecutive run `?page=1 .. ?page=n` of ok pages
before the first failure with `n ≤ MAX_PAGE`, the requests go out in
increasing consecutive order, and no page at or past a failing page is
ever recorded as valid. -/
def DiscoverySpec (net : PyStr → GotoResult) (base : PyStr) : Prop :=
  ∃ n, n ≤ MAX_PAGE ∧
    (discoverDataset net base).1 = (List.range' 1 n).map (pageUrl base) ∧
    (discoverDataset net base).2 =
      base :: (List.range' 1 (if n = MAX_PAGE then n else n + 1)).map (pageUrl base) ∧
    (∀ k, 1 ≤ k → k ≤ n → (net (pageUrl base k)).isOk = true) ∧
    (n = MAX_PAGE ∨ (net (pageUrl base (n + 1))).isOk = false) ∧
    (∀ m k, 1 ≤ m → (net (pageUrl base m)).isOk = false → m ≤ k →
      pageUrl base k ∉ (discoverDataset net base).1)

/-- C3: for a dataset whose base page loads ok, Phase 1 tests
`?page=1, ?page=2, ...` consecutively up to `MAX_PAGE`, records exactly
the ok pages before the first failure, and stops the dataset at the
first timeout or non-ok response. -/
theorem discovery_consecutive_until_failure (net : PyStr → GotoResult) (base : PyStr)
    (hbase : (net base).isOk = true) : DiscoverySpec net base := by
  rcases hb : net base with _ | _ | ⟨ok, s⟩ <;> rw [hb] at hbase
  · exact absurd hbase (by simp [GotoResult.isOk])
  · exact absurd hbase (by simp [GotoResult.isOk])
  cases ok with
  | false => exact absurd hbase (by simp [GotoResult.isOk])
  | true =>
    have hd : discoverDataset net base =
        ((discoverLoop net base 1 MAX_PAGE).1,
         base :: (discoverLoop net base 1 MAX_PAGE).2) := by
      simp [discoverDataset, hb]
    obtain ⟨n, hle, h1, h2, hok, hlast⟩ := discoverLoop_spec net base MAX_PAGE 1
    refine ⟨n, hle, ?_, ?_, ?_, ?_, ?_⟩
    · rw [hd]; exact h1
    · rw [hd, h2]
    · intro k hk1 hk2
      exact hok k hk1 (by omega)
    · rcases hlast with h | h
      · exact Or.inl h
      · right
        rw [show n + 1 = 1 + n by omega]
        exact h
    · intro m k hm hfail hmk hmem
      rw [hd] at hmem
      rw [h1, List.mem_map] at hmem
      obtain ⟨j, hj, hjeq⟩ := hmem
      have hjk : j = k := pageUrl_inj_same hjeq
      rw [List.mem_range'_1] at hj
      have hok_m := hok m hm (by omega)
      rw [hok_m] at hfail
      exact absurd hfail (by simp)

/-- A network oracle answering every `goto` with an ok 200 response. -/
def netAllOk : PyStr → GotoResult := fun _ => GotoResult.resp true 200

/-- Witness for C3 at a concrete oracle (everything answers ok). -/
theorem discovery_consecutive_until_failure_witness :
    (netAllOk dataset9).isOk = true ∧ DiscoverySpec netAllOk dataset9 :=
  ⟨rfl, discovery_consecutive_until_failure netAllOk dataset9 rfl⟩

/-- A network oracle where the base page answers ok and every numbered
page times out. -/
def netTimeoutPages : PyStr → GotoResult := fun u =>
  if u = dataset9 then GotoResult.resp true 200 else GotoResult.timeout

/-- C4 counterexample: with the dataset-9 base page ok and `?page=1`
timing out, Phase 1 records nothing for the dataset, requests the
timed-out URL exactly once (it is never retried), and never requests
`?page=2`: the dataset is permanently abandoned at the first timeout
instead of the navigation being retried. -/
theorem timeout_not_retried_counterexample :
    (discoverDataset netTimeoutPages dataset9).1 = [] ∧
    (discoverDataset netTimeoutPages dataset9).2 = [dataset9, pageUrl dataset9 1] ∧
    ((discoverDataset netTimeoutPages dataset9).2.count (pageUrl dataset9 1) = 1) ∧
    pageUrl dataset9 2 ∉ (discoverDataset netTimeoutPages dataset9).2 := by
  decide

/-- C4 amended: browser navigation timeouts are never retried by the
downloader's discovery phase.  Every URL is passed to `page.goto` at most
once per dataset (the request trace has no duplicates), and once a
numbered page times out, no later page of that dataset is requested: the
dataset is abandoned at the timeout. -/
theorem timeout_aborts_dataset (net : PyStr → GotoResult) (base : PyStr) :
    (discoverDataset net base).2.Nodup ∧
    (∀ m k, 1 ≤ m → net (pageUrl base m) = GotoResult.timeout → m < k →
      pageUrl base k ∉ (discoverDataset net base).2) := by
  have hmapnd : ∀ t : Nat, ((List.range' 1 t).map (pageUrl base)).Nodup := by
    intro t
    exact List.Nodup.map (fun a b h => pageUrl_inj_same h) (List.nodup_range' 1 t)
  rcases hb : net base with _ | _ | ⟨ok, s⟩
  · refine ⟨by simp [discoverDataset, hb], ?_⟩
    intro m k _ _ _ hmem
    simp [discoverDataset, hb] at hmem
    exact pageUrl_ne_base base k hmem
  · refine ⟨by simp [discoverDataset, hb], ?_⟩
    intro m k _ _ _ hmem
    simp [discoverDataset, hb] at hmem
    exact pageUrl_ne_base base k hmem
  cases ok with
  | false =>
    refine ⟨by simp [discoverDataset, hb], ?_⟩
    intro m k _ _ _ hmem
    simp [discoverDataset, hb] at hmem
    exact pageUrl_ne_base base k hmem
  | true =>
    have hd : discoverDataset net base =
        ((discoverLoop net base 1 MAX_PAGE).1,
         base :: (discoverLoop net base 1 MAX_PAGE).2) := by
      simp [discoverDataset, hb]
    obtain ⟨n, hle, h1, h2, hok, hlast⟩ := discoverLoop_spec net base MAX_PAGE 1
    constructor
    · rw [hd]
      refine List.Nodup.cons ?_ (h2 ▸ hmapnd _)
      intro hmem
      rw [h2, List.mem_map] at hmem
      obtain ⟨j, _, hjeq⟩ := hmem
      exact pageUrl_ne_base base j hjeq
    · intro m k hm htimeout hmk hmem
      rw [hd] at hmem
      rcases List.mem_cons.1 hmem with hmem | hmem
      · exact pageUrl_ne_base base k hmem
      · rw [h2, List.mem_map] at hmem
        obtain ⟨j, hj, hjeq⟩ := hmem
        have hjk : j = k := pageUrl_inj_same hjeq
        rw [List.mem_range'_1] at hj
        have hkn : k ≤ n + 1 := by
          rcases hj with ⟨hj1, hj2⟩
          by_cases hcase : n = MAX_PAGE
          · rw [if_pos hcase] at hj2; omega
          · rw [if_neg hcase] at hj2; omega
        have hok_m : (net (pageUrl base m)).isOk = true := hok m hm (by omega)
        rw [htimeout] at hok_m
        exact absurd hok_m (by simp [GotoResult.isOk])

/-- Witness for the amended C4 theorem at a concrete oracle and base. -/
theorem timeout_aborts_dataset_witness :
    (discoverDataset netTimeoutPages dataset9).2.Nodup ∧
    (∀ m k, 1 ≤ m → netTimeoutPages (pageUrl dataset9 m) = GotoResult.timeout → m < k →
      pageUrl dataset9 k ∉ (discoverDataset netTimeoutPages dataset9).2) :=
  timeout_aborts_dataset netTimeoutPages dataset9

/-! ### Sorting and writing `valid_page_urls.txt` -/

/-- Python `<=` on strings: lexicographic comparison by code point. -/
def pyLe : PyStr → PyStr → Bool
  | [], _ => true
  | _ :: _, [] => false
  | a :: as, b :: bs =>
    if a < b then true
    else if b < a then false
    else pyLe as bs

theorem pyLe_total : ∀ a b : PyStr, (pyLe a b || pyLe b a) = true := by
  intro a
  induction a with
  | nil => intro b; simp [pyLe]
  | cons x xs ih =>
    intro b
    cases b with
    | nil => simp [pyLe]
    | cons y ys =>
      rcases lt_trichotomy x y with h | h | h
      · simp [pyLe, h]
      · subst h
        simp only [pyLe, lt_irrefl, if_false]
        exact ih ys
      · simp [pyLe, h, not_lt_of_gt h]

theorem pyLe_trans : ∀ a b c : PyStr,
    pyLe a b = true → pyLe b c = true → pyLe a c = true := by
  intro a
  induction a with
  | nil => intro b c _ _; simp [pyLe]
  | cons x xs ih =>
    intro b c h1 h2
    cases b with
    | nil => simp [pyLe] at h1
    | cons y ys =>
      cases c with
      | nil => simp [pyLe] at h2
      | cons z zs =>
        simp only [pyLe] at h1 h2 ⊢
        rcases lt_trichotomy x y with hxy | hxy | hxy
        · rcases lt_trichotomy y z with hyz | hyz | hyz
          · rw [if_pos (lt_trans hxy hyz)]
          · subst hyz
            rw [if_pos hxy]
          · rw [if_pos hyz, if_neg (not_lt_of_gt hyz)] at h2
            simp at h2
        · subst hxy
          rcases lt_trichotomy x z with hyz | hyz | hyz
          · rw [if_pos hyz]
          · subst hyz
            rw [if_neg (lt_irrefl x)] at h1 h2 ⊢
            rw [if_neg (lt_irrefl x)] at h1 h2 ⊢
            exact ih _ _ h1 h2
          · rw [if_pos hyz, if_neg (not_lt_of_gt hyz)] at h2
            simp at h2
        · rw [if_pos hxy, if_neg (not_lt_of_gt hxy)] at h1
          simp at h1

/-- Python's `list.sort()` / `sorted(...)`: stable sort by `pyLe`. -/
def pySort (l : List PyStr) : List PyStr := l.mergeSort pyLe

theorem pySort_pairwise (l : List PyStr) :
    (pySort l).Pairwise (fun a b => pyLe a b = true) :=
  List.sorted_mergeSort pyLe_trans pyLe_total l

theorem pySort_perm (l : List PyStr) : (pySort l).Perm l :=
  List.mergeSort_perm l pyLe

/-- `"\n".join(...)`: the content written to `valid_page_urls.txt`. -/
def joinNl (ls : List PyStr) : PyStr := List.intercalate "\n".data ls

/-- The list written by generate_valid_urls.py (lines 137-142):
`valid_page_urls = sorted(set(valid_page_urls))`.  The Python `set`
deduplicates; its iteration order is irrelevant under the sort. -/
def generate_sorted_urls (urls : List PyStr) : List PyStr := pySort urls.dedup

/-- The file content written by generate_valid_urls.py (line 142). -/
def generate_output (urls : List PyStr) : PyStr := joinNl (generate_sorted_urls urls)

/-- Phase-1 discovery over all datasets in the downloader (lines 70-100):
per-dataset valid URLs are appended in order over `DATASET_PAGES`, then
`valid_page_urls.sort()`; line 101 writes their `"\n"`-join. -/
def downloaderDiscovered (net : PyStr → GotoResult) : List PyStr :=
  pySort ((DATASET_PAGES.map (fun b => (discoverDataset net b).1)).flatten)

/-- The valid list of one dataset always has the shape
`[?page=1, ..., ?page=n]`. -/
theorem discoverDataset_shape (net : PyStr → GotoResult) (b : PyStr) :
    ∃ n, (discoverDataset net b).1 = (List.range' 1 n).map (pageUrl b) := by
  rcases hb : net b with _ | _ | ⟨ok, s⟩
  · exact ⟨0, by simp [discoverDataset, hb]⟩
  · exact ⟨0, by simp [discoverDataset, hb]⟩
  cases ok with
  | false => exact ⟨0, by simp [discoverDataset, hb]⟩
  | true =>
    obtain ⟨n, _, h1, _, _, _⟩ := discoverLoop_spec net b MAX_PAGE 1
    exact ⟨n, by simp [discoverDataset, hb]; exact h1⟩

theorem pageUrl_map_nodup (b : PyStr) (n : Nat) :
    ((List.range' 1 n).map (pageUrl b)).Nodup :=
  List.Nodup.map (fun _ _ h => pageUrl_inj_same h) (List.nodup_range' 1 n)

theorem pageUrl_lists_disjoint {b₁ b₂ : PyStr}
    (h1 : ('?' : Char) ∉ b₁) (h2 : ('?' : Char) ∉ b₂) (hne : b₁ ≠ b₂)
    (n₁ n₂ : Nat) :
    List.Disjoint ((List.range' 1 n₁).map (pageUrl b₁))
      ((List.range' 1 n₂).map (pageUrl b₂)) := by
  intro x hx1 hx2
  rw [List.mem_map] at hx1 hx2
  obtain ⟨j, _, hj⟩ := hx1
  obtain ⟨k, _, hk⟩ := hx2
  exact hne (pageUrl_inj_cross h1 h2 (hj.trans hk.symm)).1

theorem qmark_not_in_dataset9 : ('?' : Char) ∉ dataset9 := by decide
theorem qmark_not_in_dataset10 : ('?' : Char) ∉ dataset10 := by decide
theorem qmark_not_in_dataset11 : ('?' : Char) ∉ dataset11 := by decide

/-- C5: the URL list whose `"\n"`-join is written to
`valid_page_urls.txt` is duplicate-free and sorted ascending by the
lexicographic string order, both for the click-based script's
`sorted(set(...))` and for the downloader's Phase-1 `sort()` of the
discovered numbered pages. -/
theorem valid_urls_file_sorted_unique :
    (∀ urls : List PyStr,
      (generate_sorted_urls urls).Pairwise (fun a b => pyLe a b = true) ∧
      (generate_sorted_urls urls).Nodup) ∧
    (∀ net : PyStr → GotoResult,
      (downloaderDiscovered net).Pairwise (fun a b => pyLe a b = true) ∧
      (downloaderDiscovered net).Nodup) := by
  constructor
  · intro urls
    refine ⟨pySort_pairwise _, ?_⟩
    exact ((pySort_perm urls.dedup).symm).nodup (List.nodup_dedup urls)
  · intro net
    refine ⟨pySort_pairwise _, ?_⟩
    obtain ⟨n9, h9⟩ := discoverDataset_shape net dataset9
    obtain ⟨n10, h10⟩ := discoverDataset_shape net dataset10
    obtain ⟨n11, h11⟩ := discoverDataset_shape net dataset11
    have hflat : (DATASET_PAGES.map (fun b => (discoverDataset net b).1)).flatten =
        (discoverDataset net dataset9).1 ++
          ((discoverDataset net dataset10).1 ++
            ((discoverDataset net dataset11).1 ++ [])) := by
      simp [DATASET_PAGES]
    have hnd : ((DATASET_PAGES.map (fun b => (discoverDataset net b).1)).flatten).Nodup := by
      rw [hflat, h9, h10, h11]
      rw [List.nodup_append]
      refine ⟨pageUrl_map_nodup _ _, ?_, ?_⟩
      · rw [List.nodup_append]
        refine ⟨pageUrl_map_nodup _ _, ?_, ?_⟩
        · rw [List.nodup_append]
          exact ⟨pageUrl_map_nodup _ _, List.nodup_nil, by simp [List.Disjoint]⟩
        · rw [List.disjoint_append_right]
          refine ⟨pageUrl_lists_disjoint qmark_not_in_dataset10 qmark_not_in_dataset11
            (by decide) _ _, by simp [List.Disjoint]⟩
      · rw [List.disjoint_append_right]
        refine ⟨pageUrl_lists_disjoint qmark_not_in_dataset9 qmark_not_in_dataset10
          (by decide) _ _, ?_⟩
        rw [List.disjoint_append_right]
        refine ⟨pageUrl_lists_disjoint qmark_not_in_dataset9 qmark_not_in_dataset11
          (by decide) _ _, by simp [List.Disjoint]⟩
    exact ((pySort_perm _).symm).nodup hnd

/-! ### `url_filename`: `urllib.parse.urlparse` plus `posixpath.basename`

`url_filename(u)` (load_files_locally_20260130.py, lines 18-20) is
`os.path.basename(urlparse(u).path) or "download.pdf"`.  `urlsplit` /
`urlparse` are translated from CPython 3.12's `urllib/parse.py` (POSIX
`os.path`).  Two deep stdlib validation steps that can only pass or raise
`ValueError` — the `ipaddress` validation of a bracketed IPv6/IPvFuture
host and the NFKC round-trip check of a non-ASCII netloc — are modelled
as boolean oracles; `urlsplit` raising is `Except.error`. -/

/-- The attribute filter of the CSS selector. -/
def selectorMatchesPdf (href : PyStr) : Bool :=
  pyEndsWith href ".pdf".data || pyEndsWith href ".PDF".data ||
    pyEndsWith href ".ppdf".data || pyEndsWith href ".PPDF".data

def collect_pdfs_from_current_page (resolve : PyStr → PyStr → PyStr)
    (pageU : PyStr) (anchors : List (Option PyStr)) : List PyStr :=
  (anchors.filterMap (fun ho =>
    ho.bind (fun h =>
      if selectorMatchesPdf h then
        if h = [] then none
        else some (normalize_pdf_url (resolve pageU h))
      else none))).dedup

/-- The browser's URL resolution preserves a trailing `.pdf`-family
extension (external `new URL` behaviour, hypothesised). -/
def ResolvePreservesExt (resolve : PyStr → PyStr → PyStr) : Prop :=
  ∀ b h sfx, sfx ∈ [".pdf".data, ".PDF".data, ".ppdf".data, ".PPDF".data] →
    pyEndsWith h sfx = true → pyEndsWith (resolve b h) sfx = true

theorem pyEndsWith_append (x s : PyStr) : pyEndsWith (x ++ s) s = true := by
  rw [pyEndsWith_iff]
  exact List.suffix_append x s

theorem pyLower_PDF : pyLower ".PDF".data = ".pdf".data := by decide
theorem pyLower_ppdf : pyLower ".ppdf".data = ".ppdf".data := by decide
theorem pyLower_PPDF : pyLower ".PPDF".data = ".ppdf".data := by decide

/-- After normalization, any string ending in one of the four selector
extensions ends in `".pdf"` case-insensitively. -/
theorem normalize_lower_ends_pdf (w : PyStr)
    (h : pyEndsWith w ".pdf".data = true ∨ pyEndsWith w ".PDF".data = true ∨
      pyEndsWith w ".ppdf".data = true ∨ pyEndsWith w ".PPDF".data = true) :
    pyEndsWith (pyLower (normalize_pdf_url w)) ".pdf".data = true := by
  have hppdf : ∀ y : PyStr, pyLower (y ++ ".ppdf".data) = pyLower y ++ ".ppdf".data := by
    intro y
    rw [pyLower_append, pyLower_ppdf]
  rcases h with h | h | h | h
  · obtain ⟨y, hy⟩ := (pyEndsWith_iff w ".pdf".data).1 h
    subst hy
    have hguard : pyEndsWith (pyLower (y ++ ".pdf".data)) ".ppdf".data = false := by
      rw [pyLower_append, pyLower_pdf]
      exact not_ppdf_suffix_of_pdf _
    rw [normalize_pdf_url, if_neg (by rw [hguard]; exact Bool.false_ne_true)]
    rw [pyLower_append, pyLower_pdf]
    exact pyEndsWith_append _ _
  · obtain ⟨y, hy⟩ := (pyEndsWith_iff w ".PDF".data).1 h
    subst hy
    have hlow : pyLower (y ++ ".PDF".data) = pyLower y ++ ".pdf".data := by
      rw [pyLower_append, pyLower_PDF]
    have hguard : pyEndsWith (pyLower (y ++ ".PDF".data)) ".ppdf".data = false := by
      rw [hlow]
      exact not_ppdf_suffix_of_pdf _
    rw [normalize_pdf_url, if_neg (by rw [hguard]; exact Bool.false_ne_true)]
    rw [hlow]
    exact pyEndsWith_append _ _
  · obtain ⟨y, hy⟩ := (pyEndsWith_iff w ".ppdf".data).1 h
    subst hy
    have hguard : pyEndsWith (pyLower (y ++ ".ppdf".data)) ".ppdf".data = true := by
      rw [hppdf]
      exact pyEndsWith_append _ _
    rw [normalize_pdf_url, if_pos hguard]
    rw [pyLower_append, pyLower_pdf]
    exact pyEndsWith_append _ _
  · obtain ⟨y, hy⟩ := (pyEndsWith_iff w ".PPDF".data).1 h
    subst hy
    have hguard : pyEndsWith (pyLower (y ++ ".PPDF".data)) ".ppdf".data = true := by
      rw [pyLower_append, pyLower_PPDF]
      exact pyEndsWith_append _ _
    rw [normalize_pdf_url, if_pos hguard]
    rw [pyLower_append, pyLower_pdf]
    exact pyEndsWith_append _ _

/-- C6: assuming the browser's URL resolution preserves the trailing
extension, every URL collected from a page ends in `".pdf"`
case-insensitively; each comes from a non-empty anchor href matching the
selector, resolved against the page URL and `.ppdf`-normalized. -/
theorem collect_pdfs_spec (resolve : PyStr → PyStr → PyStr) (pageU : PyStr)
    (anchors : List (Option PyStr)) (hres : ResolvePreservesExt resolve) :
    ∀ v ∈ collect_pdfs_from_current_page resolve pageU anchors,
      pyEndsWith (pyLower v) ".pdf".data = true ∧
      ∃ h, some h ∈ anchors ∧ h ≠ [] ∧ selectorMatchesPdf h = true ∧
        v = normalize_pdf_url (resolve pageU h) := by
  intro v hv
  rw [collect_pdfs_from_current_page, List.mem_dedup, List.mem_filterMap] at hv
  obtain ⟨ho, hmem, heq⟩ := hv
  cases ho with
  | none => simp at heq
  | some h =>
    simp only [Option.some_bind] at heq
    by_cases hsel : selectorMatchesPdf h = true
    · rw [if_pos hsel] at heq
      by_cases hemp : h = []
      · rw [if_pos hemp] at heq
        exact absurd heq (by simp)
      · rw [if_neg hemp] at heq
        simp only [Option.some.injEq] at heq
        subst heq
        have hor : pyEndsWith h ".pdf".data = true ∨ pyEndsWith h ".PDF".data = true ∨
            pyEndsWith h ".ppdf".data = true ∨ pyEndsWith h ".PPDF".data = true := by
          rw [selectorMatchesPdf] at hsel
          rcases Bool.or_eq_true_iff.1 hsel with h1 | h1
          · rcases Bool.or_eq_true_iff.1 h1 with h2 | h2
            · rcases Bool.or_eq_true_iff.1 h2 with h3 | h3
              · exact Or.inl h3
              · exact Or.inr (Or.inl h3)
            · exact Or.inr (Or.inr (Or.inl h2))
          · exact Or.inr (Or.inr (Or.inr h1))
        have hresolved : pyEndsWith (resolve pageU h) ".pdf".data = true ∨
            pyEndsWith (resolve pageU h) ".PDF".data = true ∨
            pyEndsWith (resolve pageU h) ".ppdf".data = true ∨
            pyEndsWith (resolve pageU h) ".PPDF".data = true := by
          rcases hor with h1 | h1 | h1 | h1
          · exact Or.inl (hres pageU h _ (by simp) h1)
          · exact Or.inr (Or.inl (hres pageU h _ (by simp) h1))
          · exact Or.inr (Or.inr (Or.inl (hres pageU h _ (by simp) h1)))
          · exact Or.inr (Or.inr (Or.inr (hres pageU h _ (by simp) h1)))
        exact ⟨normalize_lower_ends_pdf _ hresolved, h, hmem, hemp, hsel, rfl⟩
    · rw [if_neg hsel] at heq
      exact absurd heq (by simp)

/-- The identity resolver (already-absolute hrefs). -/
def resolveId : PyStr → PyStr → PyStr := fun _ h => h

/-- Witness for C6 at a concrete resolver and anchor list. -/
theorem collect_pdfs_spec_witness :
    ResolvePreservesExt resolveId ∧
    (∀ v ∈ collect_pdfs_from_current_page resolveId "http://x/p".data
        [some "a.PPDF".data, none, some "b.pdf".data],
      pyEndsWith (pyLower v) ".pdf".data = true ∧
      ∃ h, some h ∈ [some "a.PPDF".data, none, some "b.pdf".data] ∧ h ≠ [] ∧
        selectorMatchesPdf h = true ∧
        v = normalize_pdf_url (resolveId "http://x/p".data h)) :=
  ⟨fun _ _ _ _ hh => hh,
   collect_pdfs_spec resolveId "http://x/p".data
     [some "a.PPDF".data, none, some "b.pdf".data] (fun _ _ _ _ hh => hh)⟩

/-! ### Step 2: reuse `valid_page_urls.txt` when it has content
(load_files_locally_20260130.py, lines 58-63 and 70-103) -/

/-- Python `str.splitlines()` line boundaries. -/
def isLineBoundary (c : Char) : Bool :=
  c == '\n' || c == '\r' || c == '\x0b' || c == '\x0c' ||
    c == '\x1c' || c == '\x1d' || c == '\x1e' || c == '\u0085' ||
    c == ' ' || c == ' '

/-- `str.splitlines()` with an accumulator for the current line
(reversed); `'\r\n'` counts as a single boundary and a trailing empty
segment is not emitted. -/
def pySplitlinesAux : PyStr → PyStr → List PyStr
  | [], acc => if acc.isEmpty then [] else [acc.reverse]
  | [c], acc =>
    if isLineBoundary c then [acc.reverse]
    else [(c :: acc).reverse]
  | c :: cn :: cs', acc =>
    if isLineBoundary c then
      if c = '\r' ∧ cn = '\n' then acc.reverse :: pySplitlinesAux cs' []
      else acc.reverse :: pySplitlinesAux (cn :: cs') []
    else pySplitlinesAux (cn :: cs') (c :: acc)

def pySplitlines (s : PyStr) : List PyStr := pySplitlinesAux s []

/-- Characters stripped by Python `str.strip()` (`str.isspace`). -/
def pyIsSpace (c : Char) : Bool :=
  c == ' ' || c == '\t' || c == '\n' || c == '\r' || c == '\x0b' || c == '\x0c' ||
    c == '\x1c' || c == '\x1d' || c == '\x1e' || c == '\x1f' || c == '\u0085' ||
    c == ' ' || c == ' ' || (' ' ≤ c && c ≤ ' ') ||
    c == ' ' || c == ' ' || c == ' ' || c == ' ' || c == '　'

/-- Python `s.strip()`. -/
def pyStrip (s : PyStr) : PyStr :=
  ((s.dropWhile pyIsSpace).reverse.dropWhile pyIsSpace).reverse

/-- Line 60: `[u.strip() for u in ....splitlines() if u.strip()]`, with
`none` for an absent `valid_page_urls.txt`. -/
def readValidUrls : Option PyStr → List PyStr
  | none => []
  | some c => ((pySplitlines c).map pyStrip).filter (fun l => l ≠ [])

/-- Steps 1-2 of the downloader's `main` (lines 58-103): when the file
yields non-blank lines, use them, issue no `page.goto`, and write
nothing; otherwise run Phase-1 discovery over `DATASET_PAGES`, sort, and
rewrite the file.  Returns `(valid_page_urls, file write if any,
page.goto trace)`. -/
def mainPhase1 (fileContent : Option PyStr) (net : PyStr → GotoResult) :
    List PyStr × Option PyStr × List PyStr :=
  if readValidUrls fileContent ≠ [] then
    (readValidUrls fileContent, none, [])
  else
    (downloaderDiscovered net, some (joinNl (downloaderDiscovered net)),
      (DATASET_PAGES.map (fun b => (discoverDataset net b).2)).flatten)

/-- C8: with at least one non-blank line in `valid_page_urls.txt`, the
downloader takes the stripped non-blank lines, performs no discovery
navigation at all (the result is oracle-independent and the `goto` trace
is empty), and does not rewrite the file; discovery and the rewrite run
exactly when the file is absent or all-blank. -/
theorem phase1_file_reuse (fileContent : Option PyStr)
    (net net' : PyStr → GotoResult) :
    (readValidUrls fileContent ≠ [] →
      mainPhase1 fileContent net = (readValidUrls fileContent, none, []) ∧
      mainPhase1 fileContent net' = mainPhase1 fileContent net) ∧
    (readValidUrls fileContent = [] →
      mainPhase1 fileContent net =
        (downloaderDiscovered net, some (joinNl (downloaderDiscovered net)),
          (DATASET_PAGES.map (fun b => (discoverDataset net b).2)).flatten)) := by
  constructor
  · intro h
    rw [mainPhase1, if_pos h, mainPhase1, if_pos h]
    exact ⟨rfl, rfl⟩
  · intro h
    rw [mainPhase1, if_neg (by simp [h])]

/-- A concrete two-URL file content with blanks and padding. -/
def caseFileContent : PyStr := "  http://a  \n\nhttp://b".data

/-- Witness for C8 at a concrete file content. -/
theorem phase1_file_reuse_witness :
    readValidUrls (some caseFileContent) ≠ [] ∧
    (mainPhase1 (some caseFileContent) netAllOk =
        (readValidUrls (some caseFileContent), none, []) ∧
      mainPhase1 (some caseFileContent) netTimeoutPages =
        mainPhase1 (some caseFileContent) netAllOk) :=
  ⟨by decide,
   (phase1_file_reuse (some caseFileContent) netAllOk netTimeoutPages).1 (by decide)⟩
